import Mathlib

/-!
Verification of the slithergen hexagonal map model and its binary codec.

The definitions below are a shallow embedding of src/model.rs and src/io.rs.
Machine integers are modelled as Nat / Int with explicit two's-complement
wrapping where the source performs `u8 -> i8` casts or i8 arithmetic
(Rust release-profile semantics; the wrap points are exactly the places
where the source computes on i8 values).  File I/O is modelled as byte
lists; fallible operations return Except.
-/

namespace Slithergen

/-- Axial coordinate (q, r); the source stores both components as i8. -/
structure Coord where
  q : Int
  r : Int
deriving DecidableEq

/-- Region of a cell: inside or outside the loop (src/model.rs). -/
inductive Region where
  | Inside
  | Outside
deriving DecidableEq

/-- A single hexagonal cell (src/model.rs); full_neighbor_count is a u8. -/
structure Cell where
  region : Region
  full_neighbor_count : Nat
  clue_visible : Bool
deriving DecidableEq

/-- The game map: a radius (u8) and a coordinate-to-cell mapping.  The
source uses a HashMap; we model it as a partial function, with get as
application and insert as pointwise update. -/
structure Map where
  radius : Nat
  cells : Coord → Option Cell

/-- Map::new — an empty map with the given radius. -/
def Map.new (radius : Nat) : Map :=
  Map.mk radius (fun _ => none)

/-- Reinterpretation of a u8 value as an i8 (Rust `as i8` cast,
two's-complement wrap). -/
def u8ToI8 (n : Nat) : Int :=
  if n % 256 < 128 then (n % 256 : Int) else (n % 256 : Int) - 256

/-- Two's-complement wrap of an integer into the i8 range [-128, 127],
the release-profile result of an overflowing i8 operation. -/
def wrap8 (x : Int) : Int := (x + 128) % 256 - 128

/-- Inclusive integer range a..=b as a list (Rust RangeInclusive on i8). -/
def intRange (a b : Int) : List Int :=
  (List.range (b + 1 - a).toNat).map (fun (i : Nat) => a + (i : Int))

/-- Map::iter_coords from src/model.rs, parameterised by the radius it
reads from the map.  The source casts the u8 radius to i8 and computes
`(-r..=r).flat_map(|q| (max(-r, -q-r)..=min(r, -q+r)).map(...))` in i8
arithmetic; every i8 operation is wrapped. -/
def iter_coords (radius : Nat) : List Coord :=
  (intRange (wrap8 (-(u8ToI8 radius))) (u8ToI8 radius)).flatMap (fun q =>
    (intRange
        (max (wrap8 (-(u8ToI8 radius))) (wrap8 (wrap8 (-q) - u8ToI8 radius)))
        (min (u8ToI8 radius) (wrap8 (wrap8 (-q) + u8ToI8 radius)))).map
      (fun rr => Coord.mk q rr))

/-- Map::iter_coords as a method, as in the source. -/
def Map.iter_coords (m : Map) : List Coord :=
  Slithergen.iter_coords m.radius

/-- Modelled from the spec: the enumeration exactly as the specification
words it — q ascending from -R to R, and within each q, r ascending from
max(-R, -q-R) to min(R, -q+R), in ideal (unbounded) integer arithmetic.
Used to compare the source enumerator against the specified order. -/
def specEnum (R : Nat) : List Coord :=
  (intRange (-(R : Int)) R).flatMap (fun q =>
    (intRange (max (-(R : Int)) (-q - R)) (min (R : Int) (-q + R))).map
      (fun rr => Coord.mk q rr))

/-- Error kinds the codec reports (io::ErrorKind values used in src/io.rs). -/
inductive IOErrorKind where
  | unexpectedEof
  | invalidData
deriving DecidableEq

/-- pack_cell from src/io.rs: bit 0 region, bits 1-3 count, bit 4 visible. -/
def pack_cell (cell : Cell) : Nat :=
  let byte : Nat := 0
  let byte := if cell.region = Region.Inside then byte ||| 0x1 else byte
  let byte := byte ||| ((cell.full_neighbor_count &&& 0x7) <<< 1)
  let byte := if cell.clue_visible then byte ||| 0x10 else byte
  byte

/-- unpack_cell from src/io.rs: total on every byte, extra bits dropped. -/
def unpack_cell (byte : Nat) : Cell :=
  Cell.mk
    (if (byte &&& 0x1) ≠ 0 then Region.Inside else Region.Outside)
    ((byte >>> 1) &&& 0x7)
    (decide ((byte &&& 0x10) ≠ 0))

/-- Packing loop of save_map: look each coordinate up, failing with
invalid-data when one is missing, and emit one packed byte per coordinate. -/
def packCells (cells : Coord → Option Cell) : List Coord → Except IOErrorKind (List Nat)
  | [] => Except.ok []
  | c :: cs =>
    match cells c with
    | none => Except.error IOErrorKind.invalidData
    | some cell =>
      match packCells cells cs with
      | Except.error e => Except.error e
      | Except.ok bs => Except.ok (pack_cell cell :: bs)

/-- save_map from src/io.rs, modelled on byte lists: modern mode emits a
zero flag byte then the radius byte, legacy mode only the radius byte,
followed by the packed cells in iter_coords order.  The source streams the
bytes to a file; here the produced byte list is returned on success. -/
def save_map (m : Map) (legacy : Bool) : Except IOErrorKind (List Nat) :=
  match packCells m.cells (iter_coords m.radius) with
  | Except.error e => Except.error e
  | Except.ok bytes => Except.ok ((if legacy then [m.radius] else [0, m.radius]) ++ bytes)

/-- Reconstruction loop of load_map: walk the coordinate list in lockstep
with the payload bytes, inserting the decoded cell for each coordinate,
failing with unexpected-eof if the bytes run out first. -/
def fillCells (cells : Coord → Option Cell) :
    List Coord → List Nat → Except IOErrorKind (Coord → Option Cell)
  | [], _ => Except.ok cells
  | _ :: _, [] => Except.error IOErrorKind.unexpectedEof
  | c :: cs, b :: bs =>
    fillCells (fun x => if x = c then some (unpack_cell b) else cells x) cs bs

/-- Shared tail of load_map once the radius and payload offset are
resolved: check the payload size against the radius-derived count, then
rebuild the cell mapping in iter_coords order. -/
def loadBody (radius startOffset : Nat) (buffer : List Nat) : Except IOErrorKind Map :=
  if buffer.length - startOffset ≠ 3 * radius * (radius + 1) + 1 then
    Except.error IOErrorKind.invalidData
  else
    match fillCells (Map.new radius).cells (iter_coords radius) (buffer.drop startOffset) with
    | Except.error e => Except.error e
    | Except.ok f => Except.ok (Map.mk radius f)

/-- load_map from src/io.rs, modelled on byte lists: empty input fails
with unexpected-eof; byte 0 is a candidate legacy radius, and when the
total length equals the legacy-expected size the file is read as legacy
(radius byte 0, payload offset 1), otherwise as modern (at least two
bytes required, radius byte 1, payload offset 2). -/
def load_map (buffer : List Nat) : Except IOErrorKind Map :=
  match buffer with
  | [] => Except.error IOErrorKind.unexpectedEof
  | b0 :: rest =>
    if (b0 :: rest).length = 1 + (3 * b0 * (b0 + 1) + 1) then
      loadBody b0 1 (b0 :: rest)
    else if (b0 :: rest).length < 2 then
      Except.error IOErrorKind.unexpectedEof
    else
      loadBody (rest.headD 0) 2 (b0 :: rest)

/-! Concrete inputs used by the claim-specific theorems. -/

/-- Radius-1 map with every cell set to Cell(Inside, 1, true), as in the
round-trip tests of src/io.rs. -/
def mapRadius1 : Map :=
  Map.mk 1 (fun c => if c ∈ iter_coords 1 then some (Cell.mk Region.Inside 1 true) else none)

/-- Radius-200 map with no cells.  The source enumerator is empty at
radius 200 (the u8 radius wraps to the negative i8 value -56), so the
empty mapping has exactly one cell per enumerated coordinate. -/
def mapRadius200 : Map :=
  Map.mk 200 (fun _ => none)

/-- Radius-1 map with no cells at all: every enumerated coordinate is
missing. -/
def mapMissing : Map :=
  Map.mk 1 (fun _ => none)

/-- Modern-format buffer declaring radius 64 with exactly the
radius-64-expected payload size of 12481 bytes. -/
def buffer64 : List Nat :=
  0 :: 64 :: List.replicate 12481 0

/-- Map obtained by reading the three-byte modern file [0, 0, 0]. -/
def mapRead000 : Map :=
  Map.mk 0 (fun c => if c = Coord.mk 0 0 then some (unpack_cell 0) else none)

/-! Basic facts about integer ranges and the wrap operations. -/

theorem length_intRange (a b : Int) : (intRange a b).length = (b + 1 - a).toNat := by
  rw [intRange, List.length_map, List.length_range]

theorem mem_intRange {a b x : Int} : x ∈ intRange a b ↔ a ≤ x ∧ x ≤ b := by
  constructor
  · intro hx
    rw [intRange, List.mem_map] at hx
    obtain ⟨i, hi, hx⟩ := hx
    rw [List.mem_range] at hi
    omega
  · intro ⟨h1, h2⟩
    rw [intRange, List.mem_map]
    refine ⟨(x - a).toNat, ?_, ?_⟩
    · rw [List.mem_range]
      omega
    · omega

theorem wrap8_eq_self {x : Int} (h1 : -128 ≤ x) (h2 : x ≤ 127) : wrap8 x = x := by
  rw [wrap8]
  omega

theorem u8ToI8_of_lt {n : Nat} (h : n < 128) : u8ToI8 n = (n : Int) := by
  rw [u8ToI8]
  rw [if_pos (by omega)]
  omega

/-- Length of a row-structured flatMap as a sum of per-row range lengths. -/
theorem length_flatMap_ranges (l : List Int) (lo hi : Int → Int) :
    (l.flatMap (fun q => (intRange (lo q) (hi q)).map (fun rr => Coord.mk q rr))).length
      = (l.map (fun q => (hi q + 1 - lo q).toNat)).sum := by
  rw [List.length_flatMap]
  congr 1
  apply List.map_congr_left
  intro q _
  simp only [Function.comp_apply]
  rw [List.length_map, length_intRange]

theorem iter_coords_length_sum (radius : Nat) :
    (iter_coords radius).length
      = ((intRange (wrap8 (-(u8ToI8 radius))) (u8ToI8 radius)).map (fun q =>
          ((min (u8ToI8 radius) (wrap8 (wrap8 (-q) + u8ToI8 radius))) + 1
            - (max (wrap8 (-(u8ToI8 radius))) (wrap8 (wrap8 (-q) - u8ToI8 radius)))).toNat)).sum := by
  rw [iter_coords]
  exact length_flatMap_ranges _ _ _

theorem specEnum_length_sum (R : Nat) :
    (specEnum R).length
      = ((intRange (-(R : Int)) R).map (fun q =>
          ((min (R : Int) (-q + R)) + 1 - (max (-(R : Int)) (-q - R))).toNat)).sum := by
  rw [specEnum]
  exact length_flatMap_ranges _ _ _

set_option maxRecDepth 4000 in
theorem specEnum_sum_eval : ∀ R : Nat, R < 64 →
    ((intRange (-(R : Int)) R).map (fun q =>
        ((min (R : Int) (-q + R)) + 1 - (max (-(R : Int)) (-q - R))).toNat)).sum
      = 3 * R * (R + 1) + 1 := by
  decide

theorem specEnum_length {R : Nat} (hR : R ≤ 63) :
    (specEnum R).length = 3 * R * (R + 1) + 1 := by
  rw [specEnum_length_sum]
  exact specEnum_sum_eval R (by omega)

theorem mem_specEnum {R : Nat} {c : Coord} :
    c ∈ specEnum R ↔
      -(R : Int) ≤ c.q ∧ c.q ≤ R ∧
        max (-(R : Int)) (-c.q - R) ≤ c.r ∧ c.r ≤ min (R : Int) (-c.q + R) := by
  obtain ⟨q, r⟩ := c
  rw [specEnum, List.mem_flatMap]
  constructor
  · rintro ⟨a, ha, hmem⟩
    rw [List.mem_map] at hmem
    obtain ⟨rr, hrr, heq⟩ := hmem
    obtain ⟨h1, h2⟩ := mem_intRange.mp ha
    obtain ⟨h3, h4⟩ := mem_intRange.mp hrr
    injection heq with hq hr
    subst hq
    subst hr
    exact ⟨h1, h2, h3, h4⟩
  · rintro ⟨h1, h2, h3, h4⟩
    refine ⟨q, mem_intRange.mpr ⟨h1, h2⟩, ?_⟩
    rw [List.mem_map]
    exact ⟨r, mem_intRange.mpr ⟨h3, h4⟩, rfl⟩

/-- In the safe radius range 0-63 no i8 operation inside iter_coords can
overflow, so the source enumerator agrees with the specified enumeration. -/
theorem iter_coords_eq_specEnum {R : Nat} (hR : R ≤ 63) :
    iter_coords R = specEnum R := by
  have hu : u8ToI8 R = (R : Int) := u8ToI8_of_lt (by omega)
  have hwR : wrap8 (-(R : Int)) = -(R : Int) := wrap8_eq_self (by omega) (by omega)
  rw [iter_coords, specEnum, hu, hwR]
  rw [List.flatMap]
  rw [List.flatMap]
  congr 1
  apply List.map_congr_left
  intro q hq
  obtain ⟨hq1, hq2⟩ := mem_intRange.mp hq
  have h1 : wrap8 (-q) = -q := wrap8_eq_self (by omega) (by omega)
  have h2 : wrap8 (-q - (R : Int)) = -q - R := wrap8_eq_self (by omega) (by omega)
  have h3 : wrap8 (-q + (R : Int)) = -q + R := wrap8_eq_self (by omega) (by omega)
  rw [h1, h2, h3]

theorem iter_coords_length {R : Nat} (hR : R ≤ 63) :
    (iter_coords R).length = 3 * R * (R + 1) + 1 := by
  rw [iter_coords_eq_specEnum hR]
  exact specEnum_length hR

theorem mem_iter_coords {R : Nat} (hR : R ≤ 63) {c : Coord} :
    c ∈ iter_coords R ↔
      -(R : Int) ≤ c.q ∧ c.q ≤ R ∧
        max (-(R : Int)) (-c.q - R) ≤ c.r ∧ c.r ≤ min (R : Int) (-c.q + R) := by
  rw [iter_coords_eq_specEnum hR]
  exact mem_specEnum

/-! Cell codec lemmas. -/

theorem unpack_pack {cell : Cell} (h : cell.full_neighbor_count ≤ 7) :
    unpack_cell (pack_cell cell) = cell := by
  obtain ⟨reg, cnt, vis⟩ := cell
  simp only [Cell.full_neighbor_count] at h
  interval_cases cnt <;> cases reg <;> cases vis <;> decide

/-- The byte the packing loop emits for a coordinate (zero is never used:
the loop fails first when the cell is missing). -/
def packByte (cells : Coord → Option Cell) (c : Coord) : Nat :=
  match cells c with
  | some cell => pack_cell cell
  | none => 0

theorem packCells_ok (cells : Coord → Option Cell) (l : List Coord)
    (h : ∀ c ∈ l, (cells c).isSome) :
    packCells cells l = Except.ok (l.map (packByte cells)) := by
  induction l with
  | nil => rfl
  | cons c cs ih =>
    have hc : (cells c).isSome := h c (List.mem_cons_self c cs)
    obtain ⟨cell, hcell⟩ := Option.isSome_iff_exists.mp hc
    rw [packCells, hcell]
    rw [ih (fun x hx => h x (List.mem_cons_of_mem c hx))]
    rw [List.map_cons]
    have : packByte cells c = pack_cell cell := by
      rw [packByte, hcell]
    rw [this]

theorem packCells_missing (cells : Coord → Option Cell) (l : List Coord)
    (c : Coord) (hc : c ∈ l) (hnone : cells c = none) :
    packCells cells l = Except.error IOErrorKind.invalidData := by
  induction l with
  | nil => exact absurd hc (List.not_mem_nil c)
  | cons d ds ih =>
    rw [packCells]
    rcases List.mem_cons.mp hc with hcd | hmem
    · subst hcd
      rw [hnone]
    · cases hd : cells d with
      | none => rfl
      | some cell =>
        rw [ih hmem]

/-! Reconstruction-loop lemmas. -/

theorem fillCells_map (g : Coord → Nat) (l : List Coord) :
    ∀ cells0 : Coord → Option Cell,
      fillCells cells0 l (l.map g)
        = Except.ok (fun c => if c ∈ l then some (unpack_cell (g c)) else cells0 c) := by
  induction l with
  | nil =>
    intro cells0
    have h : (fun c => if c ∈ ([] : List Coord) then some (unpack_cell (g c)) else cells0 c)
        = cells0 := by
      funext c
      simp
    rw [List.map_nil, fillCells, h]
  | cons d ds ih =>
    intro cells0
    rw [List.map_cons, fillCells, ih]
    congr 1
    funext c
    by_cases hds : c ∈ ds
    · simp [hds]
    · by_cases hd : c = d
      · subst hd
        simp [hds]
      · simp [hds, hd]

theorem fillCells_isSome (l : List Coord) :
    ∀ (cells0 : Coord → Option Cell) (bs : List Nat) (f : Coord → Option Cell),
      fillCells cells0 l bs = Except.ok f →
        ∀ x, (f x).isSome ↔ x ∈ l ∨ (cells0 x).isSome := by
  induction l with
  | nil =>
    intro cells0 bs f h x
    rw [fillCells] at h
    injection h with h
    subst h
    simp
  | cons d ds ih =>
    intro cells0 bs f h x
    cases bs with
    | nil =>
      rw [fillCells] at h
      exact Except.noConfusion h
    | cons b bs =>
      rw [fillCells] at h
      have := ih _ _ _ h x
      rw [this]
      by_cases hd : x = d
      · subst hd
        simp
      · simp [hd]

theorem fillCells_ok_of_le (l : List Coord) :
    ∀ (cells0 : Coord → Option Cell) (bs : List Nat), l.length ≤ bs.length →
      ∃ f, fillCells cells0 l bs = Except.ok f := by
  induction l with
  | nil =>
    intro cells0 bs _
    exact ⟨cells0, rfl⟩
  | cons d ds ih =>
    intro cells0 bs hlen
    cases bs with
    | nil => simp at hlen
    | cons b bs =>
      rw [fillCells]
      exact ih _ bs (by simpa using hlen)

/-! Round-trip: writing a complete map with in-range counts and reading
the bytes back restores the map exactly, in either format mode, for every
radius in the overflow-free range 0-63. -/

theorem save_load_roundtrip (m : Map) (legacy : Bool)
    (hR : m.radius ≤ 63)
    (hcomp : ∀ c, (m.cells c).isSome ↔ c ∈ iter_coords m.radius)
    (hcnt : ∀ c cell, m.cells c = some cell → cell.full_neighbor_count ≤ 7) :
    ∃ bytes, save_map m legacy = Except.ok bytes ∧
      bytes.length = (if legacy then 1 else 2) + (3 * m.radius * (m.radius + 1) + 1) ∧
      load_map bytes = Except.ok m := by
  set R := m.radius with hRdef
  set coords := iter_coords R with hcoords
  have hclen : coords.length = 3 * R * (R + 1) + 1 := iter_coords_length hR
  have hpack : packCells m.cells coords = Except.ok (coords.map (packByte m.cells)) :=
    packCells_ok _ _ (fun c hc => (hcomp c).mpr hc)
  set payload := coords.map (packByte m.cells) with hpayload
  have hplen : payload.length = 3 * R * (R + 1) + 1 := by
    rw [hpayload, List.length_map, hclen]
  have hsave : save_map m legacy
      = Except.ok ((if legacy then [R] else [0, R]) ++ payload) := by
    rw [save_map, hpack]
  have hfill : fillCells (fun _ => none) coords payload
      = Except.ok (fun c => if c ∈ coords then some (unpack_cell (packByte m.cells c)) else none) := by
    rw [hpayload]
    exact fillCells_map _ _ _
  have hcells : (fun c => if c ∈ coords then some (unpack_cell (packByte m.cells c)) else none)
      = m.cells := by
    funext c
    by_cases hc : c ∈ coords
    · obtain ⟨cell, hcell⟩ := Option.isSome_iff_exists.mp ((hcomp c).mpr hc)
      rw [if_pos hc]
      rw [hcell]
      have hb : packByte m.cells c = pack_cell cell := by
        rw [packByte, hcell]
      rw [hb, unpack_pack (hcnt c cell hcell)]
    · rw [if_neg hc]
      have : ¬ (m.cells c).isSome := fun hs => hc ((hcomp c).mp hs)
      rw [Option.not_isSome_iff_eq_none] at this
      rw [this]
  have hL1 : 1 ≤ payload.length := by
    rw [hplen]
    exact Nat.le_add_left 1 _
  have hbody : ∀ (buffer : List Nat) (off : Nat),
      buffer.length - off = 3 * R * (R + 1) + 1 → buffer.drop off = payload →
        loadBody R off buffer = Except.ok m := by
    intro buffer off hlen hdrop
    rw [loadBody]
    rw [if_neg (by rw [hlen]; exact fun h => h rfl)]
    have hnew : (Map.new R).cells = (fun _ => none) := rfl
    rw [hdrop, hnew, hfill, hcells]
  cases legacy with
  | true =>
    refine ⟨[R] ++ payload, hsave, ?_, ?_⟩
    · rw [if_pos rfl, List.length_append, List.length_singleton, hplen]
    · rw [List.singleton_append, load_map]
      rw [if_pos (by rw [List.length_cons, hplen]; ring)]
      exact hbody _ 1 (by rw [List.length_cons, hplen]; omega) rfl
  | false =>
    refine ⟨[0, R] ++ payload, hsave, ?_, ?_⟩
    · rw [if_neg (by simp)]
      simp only [List.length_append, List.length_cons, List.length_nil, hplen]
    · have hb2 : ([0, R] ++ payload) = 0 :: R :: payload := rfl
      rw [hb2, load_map]
      rw [if_neg (by simp only [List.length_cons]; omega)]
      rw [if_neg (by simp only [List.length_cons]; omega)]
      have hhead : (R :: payload).headD 0 = R := rfl
      rw [hhead]
      exact hbody _ 2 (by simp only [List.length_cons]; rw [hplen]; omega) rfl

/-! Inversion of a successful load. -/

theorem loadBody_ok {radius off : Nat} {buffer : List Nat} {m : Map}
    (h : loadBody radius off buffer = Except.ok m) :
    m.radius = radius ∧ ∀ c, (m.cells c).isSome ↔ c ∈ iter_coords radius := by
  rw [loadBody] at h
  split at h
  · exact Except.noConfusion h
  · cases hfc : fillCells (Map.new radius).cells (iter_coords radius) (buffer.drop off) with
    | error e =>
      rw [hfc] at h
      exact Except.noConfusion h
    | ok f =>
      rw [hfc] at h
      injection h with h
      subst h
      refine ⟨rfl, ?_⟩
      intro c
      have hc := fillCells_isSome (iter_coords radius) (Map.new radius).cells _ f hfc c
      have hnone : ((Map.new radius).cells c).isSome = false := rfl
      rw [hnone] at hc
      simpa using hc

theorem load_map_ok {buffer : List Nat} {m : Map} (h : load_map buffer = Except.ok m) :
    ∀ c, (m.cells c).isSome ↔ c ∈ iter_coords m.radius := by
  cases buffer with
  | nil => exact Except.noConfusion h
  | cons b0 rest =>
    simp only [load_map] at h
    split at h
    · obtain ⟨hrad, hcomp⟩ := loadBody_ok h
      intro c
      rw [hrad]
      exact hcomp c
    · split at h
      · exact Except.noConfusion h
      · obtain ⟨hrad, hcomp⟩ := loadBody_ok h
        intro c
        rw [hrad]
        exact hcomp c

/-! Facts about the concrete radius-1 map. -/

theorem mapRadius1_complete :
    ∀ c, (mapRadius1.cells c).isSome ↔ c ∈ iter_coords mapRadius1.radius := by
  intro c
  by_cases h : c ∈ iter_coords 1
  · simp [mapRadius1, h]
  · simp [mapRadius1, h]

theorem mapRadius1_counts :
    ∀ c cell, mapRadius1.cells c = some cell → cell.full_neighbor_count ≤ 7 := by
  intro c cell hc
  by_cases h : c ∈ iter_coords 1
  · rw [show mapRadius1.cells c = if c ∈ iter_coords 1 then some (Cell.mk Region.Inside 1 true) else none from rfl, if_pos h] at hc
    injection hc with hc
    rw [← hc]
    decide
  · rw [show mapRadius1.cells c = if c ∈ iter_coords 1 then some (Cell.mk Region.Inside 1 true) else none from rfl, if_neg h] at hc
    exact Option.noConfusion hc

/-! Claim theorems. -/

/-- C1 (amended): for every complete Map of radius at most 63 in which
every cell has full_neighbor_count at most 7, writing in modern mode and
reading the bytes back yields the identical Map (same radius, identical
coordinate-to-cell mapping). -/
theorem c1_modern_roundtrip (m : Map) (hR : m.radius ≤ 63)
    (hcomp : ∀ c, (m.cells c).isSome ↔ c ∈ iter_coords m.radius)
    (hcnt : ∀ c cell, m.cells c = some cell → cell.full_neighbor_count ≤ 7) :
    ∃ bytes, save_map m false = Except.ok bytes ∧ load_map bytes = Except.ok m := by
  obtain ⟨bytes, h1, _, h3⟩ := save_load_roundtrip m false hR hcomp hcnt
  exact ⟨bytes, h1, h3⟩

/-- C1 witness: the radius-1 map with every cell Cell(Inside, 1, true)
round-trips through the modern format. -/
theorem c1_witness :
    ∃ bytes, save_map mapRadius1 false = Except.ok bytes ∧
      load_map bytes = Except.ok mapRadius1 :=
  c1_modern_roundtrip mapRadius1 (by decide) mapRadius1_complete mapRadius1_counts

/-- C1 counterexample: the radius-200 map is complete (the enumerator is
empty at radius 200 because the u8 radius wraps to a negative i8), every
cell trivially has a small count, the modern write succeeds, yet reading
the resulting bytes back yields a map whose radius is 0, not 200. -/
theorem c1_counterexample :
    mapRadius200.radius = 200 ∧
    (∀ c, (mapRadius200.cells c).isSome ↔ c ∈ iter_coords mapRadius200.radius) ∧
    (∀ c cell, mapRadius200.cells c = some cell → cell.full_neighbor_count ≤ 7) ∧
    save_map mapRadius200 false = Except.ok [0, 200] ∧
    (∀ m2, load_map [0, 200] = Except.ok m2 → m2.radius ≠ 200) := by
  have hempty : iter_coords 200 = [] := by decide
  refine ⟨rfl, ?_, ?_, rfl, ?_⟩
  · intro c
    rw [show mapRadius200.radius = 200 from rfl, hempty]
    simp [mapRadius200]
  · intro c cell hc
    exact Option.noConfusion hc
  · intro m2 h
    have hload : load_map [0, 200] = loadBody 0 1 [0, 200] := rfl
    rw [hload] at h
    have := (loadBody_ok h).1
    omega

/-- C2 (amended): for every radius R in 0..=63 the enumerator produces
exactly 3R^2+3R+1 coordinates, namely all Coord(q,r) with -R <= q <= R and
max(-R, -q-R) <= r <= min(R, -q+R). -/
theorem c2_enumerator_count (R : Nat) (hR : R ≤ 63) :
    (iter_coords R).length = 3 * R * R + 3 * R + 1 ∧
    ∀ c : Coord, c ∈ iter_coords R ↔
      (-(R : Int) ≤ c.q ∧ c.q ≤ R ∧
        max (-(R : Int)) (-c.q - R) ≤ c.r ∧ c.r ≤ min (R : Int) (-c.q + R)) := by
  constructor
  · rw [iter_coords_length hR]
    ring
  · intro c
    exact mem_iter_coords hR

/-- C2 witness: at radius 2 the enumerator has 19 coordinates with the
stated membership characterisation. -/
theorem c2_witness :
    (iter_coords 2).length = 3 * 2 * 2 + 3 * 2 + 1 ∧
    ∀ c : Coord, c ∈ iter_coords 2 ↔
      (-(2 : Int) ≤ c.q ∧ c.q ≤ 2 ∧
        max (-(2 : Int)) (-c.q - 2) ≤ c.r ∧ c.r ≤ min (2 : Int) (-c.q + 2)) :=
  c2_enumerator_count 2 (by decide)

/-- C2 counterexample: at radius 200 the enumerator is empty (the u8
radius wraps to the i8 value -56, making the outer range empty), so the
count is 0, not 3*200^2+3*200+1 = 120601. -/
theorem c2_counterexample :
    ¬ ((iter_coords 200).length = 3 * 200 * 200 + 3 * 200 + 1) := by
  decide

/-- C3: read-side format detection — for every non-empty byte source,
when the total length equals 1 + (3b^2+3b+1) for b = byte 0 the file is
read as legacy (radius b, payload offset 1); otherwise it is read as
modern, failing with an end-of-data error when shorter than 2 bytes, and
otherwise using radius = byte 1 and payload offset 2. -/
theorem c3_format_detection (b0 : Nat) (rest : List Nat) :
    load_map (b0 :: rest) =
      if (b0 :: rest).length = 1 + (3 * b0 * b0 + 3 * b0 + 1) then
        loadBody b0 1 (b0 :: rest)
      else if (b0 :: rest).length < 2 then
        Except.error IOErrorKind.unexpectedEof
      else
        loadBody (rest.headD 0) 2 (b0 :: rest) := by
  have he : 1 + (3 * b0 * b0 + 3 * b0 + 1) = 1 + (3 * b0 * (b0 + 1) + 1) := by ring
  rw [he]
  rfl

set_option maxRecDepth 2000 in
/-- C4: the cell decoder is total on all byte values with the unused high
bits dropped, decode is a left inverse of encode for every cell whose
count fits in 3 bits, and the two known byte values check out. -/
theorem c4_pack_unpack :
    (∀ b : Nat, b < 256 → unpack_cell b = unpack_cell (b &&& 0x1F)) ∧
    (∀ cell : Cell, cell.full_neighbor_count ≤ 7 →
      unpack_cell (pack_cell cell) = cell) ∧
    pack_cell (Cell.mk Region.Inside 3 true) = 0x17 ∧
    pack_cell (Cell.mk Region.Outside 0 false) = 0x00 := by
  refine ⟨by decide, ?_, by decide, by decide⟩
  intro cell h
  exact unpack_pack h

/-- C4 witness: decode inverts encode on a concrete cell, and a concrete
byte decodes the same with its high bits masked off. -/
theorem c4_witness :
    unpack_cell (pack_cell (Cell.mk Region.Inside 5 false)) = Cell.mk Region.Inside 5 false ∧
    unpack_cell 255 = unpack_cell (255 &&& 0x1F) :=
  ⟨c4_pack_unpack.2.1 (Cell.mk Region.Inside 5 false) (by decide),
   c4_pack_unpack.1 255 (by decide)⟩

/-- C5 (amended): for every radius R in 0..=63 the enumerator's output is
exactly the specified order — q ascending from -R to R and, within each q,
r ascending over max(-R,-q-R)..min(R,-q+R) — and for every radius two
invocations produce identical sequences. -/
theorem c5_enumeration_order (R : Nat) :
    (R ≤ 63 → iter_coords R = specEnum R) ∧ iter_coords R = iter_coords R :=
  ⟨fun hR => iter_coords_eq_specEnum hR, rfl⟩

/-- C5 witness: at radius 1 the enumerator emits exactly the specified
sequence. -/
theorem c5_witness :
    iter_coords 1 = specEnum 1 ∧ iter_coords 1 = iter_coords 1 :=
  ⟨(c5_enumeration_order 1).1 (by decide), (c5_enumeration_order 1).2⟩

/-- C5 counterexample: at radius 129 the enumerator is empty (the u8
radius wraps to the i8 value -127), so its output is not the specified
q-ascending enumeration, which contains Coord(-129, 0). -/
theorem c5_counterexample : iter_coords 129 ≠ specEnum 129 := by
  intro h
  have h1 : Coord.mk (-129) 0 ∈ specEnum 129 := mem_specEnum.mpr (by decide)
  rw [← h] at h1
  have h2 : iter_coords 129 = [] := by decide
  rw [h2] at h1
  exact absurd h1 (List.not_mem_nil _)

/-- C6 (amended): no well-formed modern file can be misclassified — its
total length is 3R^2+3R+3, which is divisible by 3, while the
legacy-expected size for any first byte is 3b^2+3b+2, which is not, so
the reader always takes the modern branch on such a file. -/
theorem c6_no_misclassification (flag R : Nat) (payload : List Nat)
    (hlen : payload.length = 3 * R * R + 3 * R + 1) :
    (flag :: R :: payload).length ≠ 1 + (3 * flag * flag + 3 * flag + 1) ∧
    load_map (flag :: R :: payload) = loadBody R 2 (flag :: R :: payload) := by
  have hne : (flag :: R :: payload).length ≠ 1 + (3 * flag * (flag + 1) + 1) := by
    obtain ⟨k, hk⟩ : ∃ k, 3 * R * R = 3 * k := ⟨R * R, by ring⟩
    obtain ⟨j, hj⟩ : ∃ j, 3 * flag * (flag + 1) = 3 * j := ⟨flag * (flag + 1), by ring⟩
    simp only [List.length_cons, hlen, hk, hj]
    omega
  constructor
  · rw [show 1 + (3 * flag * flag + 3 * flag + 1) = 1 + (3 * flag * (flag + 1) + 1) from by ring]
    exact hne
  · simp only [load_map]
    rw [if_neg hne]
    rw [if_neg (by simp only [List.length_cons]; omega)]
    rfl

/-- C6 witness: a well-formed modern file of radius 0 with nonzero flag
byte 5 is still read as modern. -/
theorem c6_witness :
    (5 :: 0 :: [0]).length ≠ 1 + (3 * 5 * 5 + 3 * 5 + 1) ∧
    load_map (5 :: 0 :: [0]) = loadBody 0 2 (5 :: 0 :: [0]) :=
  c6_no_misclassification 5 0 [0] (by decide)

/-- C6 counterexample: there is no well-formed modern file (flag byte,
radius byte R, exactly 3R^2+3R+1 payload bytes) whose total length equals
the legacy-expected size for its first byte, hence none that the length
heuristic sends down the legacy branch. -/
theorem c6_counterexample :
    ¬ ∃ (flag R : Nat) (payload : List Nat),
        payload.length = 3 * R * R + 3 * R + 1 ∧
        load_map (flag :: R :: payload) = loadBody flag 1 (flag :: R :: payload) ∧
        (flag :: R :: payload).length = 1 + (3 * flag * flag + 3 * flag + 1) := by
  rintro ⟨flag, R, payload, hlen, _, hsz⟩
  obtain ⟨k, hk⟩ : ∃ k, 3 * R * R = 3 * k := ⟨R * R, by ring⟩
  obtain ⟨j, hj⟩ : ∃ j, 3 * flag * flag + 3 * flag = 3 * j := ⟨flag * flag + flag, by ring⟩
  rw [show 1 + (3 * flag * flag + 3 * flag + 1) = 3 * flag * flag + 3 * flag + 2 from by ring] at hsz
  simp only [List.length_cons, hlen, hk, hj] at hsz
  omega

/-- C7: the radius-1 all-(Inside,1,true) map written in legacy mode
produces exactly 8 bytes, and reading them back auto-detects the legacy
format and reconstructs the identical map. -/
theorem c7_legacy_roundtrip :
    ∃ bytes, save_map mapRadius1 true = Except.ok bytes ∧ bytes.length = 8 ∧
      load_map bytes = Except.ok mapRadius1 := by
  obtain ⟨bytes, h1, h2, h3⟩ :=
    save_load_roundtrip mapRadius1 true (by decide) mapRadius1_complete mapRadius1_counts
  refine ⟨bytes, h1, ?_, h3⟩
  rw [h2]
  decide

/-- C8 (amended): for every radius R in 1..=255, a modern byte source
with flag byte 0, radius byte R and a payload one byte shorter than
3R^2+3R+1 fails to load with an invalid-data error. -/
theorem c8_short_payload_error (R : Nat) (h1 : 1 ≤ R) (h2 : R ≤ 255)
    (payload : List Nat) (hlen : payload.length = 3 * R * R + 3 * R) :
    load_map (0 :: R :: payload) = Except.error IOErrorKind.invalidData := by
  obtain ⟨k, hk, hk1⟩ : ∃ k, 3 * R * R = 3 * k ∧ 1 ≤ k :=
    ⟨R * R, by ring, Nat.one_le_iff_ne_zero.mpr (by positivity)⟩
  simp only [load_map]
  rw [if_neg (by simp only [List.length_cons, hlen, hk]; omega)]
  rw [if_neg (by simp only [List.length_cons]; omega)]
  rw [show ((R :: payload).headD 0) = R from rfl]
  have hcond : (0 :: R :: payload).length - 2 ≠ 3 * R * (R + 1) + 1 := by
    rw [show 3 * R * (R + 1) + 1 = 3 * R * R + 3 * R + 1 from by ring]
    simp only [List.length_cons, hlen, hk]
    omega
  rw [loadBody, if_pos hcond]

/-- C8 witness: radius 1 with a 6-byte payload (one short of 7) fails
with invalid-data. -/
theorem c8_witness :
    load_map (0 :: 1 :: List.replicate 6 0) = Except.error IOErrorKind.invalidData :=
  c8_short_payload_error 1 (by decide) (by decide) (List.replicate 6 0) (by decide)

/-- C8 counterexample: at radius 0 the claim fails — the two-byte file
[0, 0] (payload one byte short of 1) is length-classified as legacy and
loads successfully instead of failing with invalid-data. -/
theorem c8_counterexample :
    ([] : List Nat).length = 3 * 0 * 0 + 3 * 0 ∧
    load_map (0 :: 0 :: []) ≠ Except.error IOErrorKind.invalidData := by
  refine ⟨rfl, ?_⟩
  intro h
  rw [show load_map (0 :: 0 :: []) = Except.ok mapRead000 from rfl] at h
  exact Except.noConfusion h

/-- C9: writing any Map that is missing at least one coordinate required
by the enumerator for its radius fails with an invalid-data error, in
either format mode. -/
theorem c9_incomplete_write_fails (m : Map) (legacy : Bool) (c : Coord)
    (hc : c ∈ iter_coords m.radius) (hnone : m.cells c = none) :
    save_map m legacy = Except.error IOErrorKind.invalidData := by
  rw [save_map, packCells_missing m.cells _ c hc hnone]

/-- C9 witness: the empty radius-1 map cannot be written. -/
theorem c9_witness :
    save_map mapMissing true = Except.error IOErrorKind.invalidData :=
  c9_incomplete_write_fails mapMissing true (Coord.mk 0 0) (by decide) rfl

/-- C10 (amended): whenever a read succeeds and the resolved radius is at
most 63, the returned Map is complete — its cell mapping holds exactly
the coordinates the enumerator produces for that radius and nothing else,
and there are 3R^2+3R+1 of them. -/
theorem c10_load_complete (buffer : List Nat) (m : Map)
    (h : load_map buffer = Except.ok m) (hR : m.radius ≤ 63) :
    (∀ c, (m.cells c).isSome ↔ c ∈ iter_coords m.radius) ∧
    (iter_coords m.radius).length = 3 * m.radius * m.radius + 3 * m.radius + 1 := by
  refine ⟨load_map_ok h, ?_⟩
  rw [iter_coords_length hR]
  ring

/-- C10 witness: reading the modern file [0, 0, 0] yields a complete
radius-0 map. -/
theorem c10_witness :
    (∀ c, (mapRead000.cells c).isSome ↔ c ∈ iter_coords mapRead000.radius) ∧
    (iter_coords mapRead000.radius).length
      = 3 * mapRead000.radius * mapRead000.radius + 3 * mapRead000.radius + 1 :=
  c10_load_complete (0 :: 0 :: [0]) mapRead000 (by rfl) (by decide)

set_option maxRecDepth 4000 in
/-- C10 counterexample: a modern file declaring radius 64 with the
expected 12481 payload bytes loads successfully, yet the enumerator
produces only 12416 coordinates at radius 64 (an i8 overflow empties the
q = -64 row), so the loaded map does not have 3*64^2+3*64+1 entries. -/
theorem c10_counterexample :
    (∃ m, load_map buffer64 = Except.ok m ∧ m.radius = 64 ∧ m.radius ≤ 127) ∧
    (iter_coords 64).length ≠ 3 * 64 * 64 + 3 * 64 + 1 := by
  have hcl : (iter_coords 64).length = 12416 := by
    rw [iter_coords_length_sum]
    decide
  constructor
  · obtain ⟨f, hf⟩ := fillCells_ok_of_le (iter_coords 64) (Map.new 64).cells
      (buffer64.drop 2)
      (by rw [hcl, show buffer64.drop 2 = List.replicate 12481 0 from rfl,
              List.length_replicate]; omega)
    rw [show buffer64.drop 2 = List.replicate 12481 0 from rfl] at hf
    refine ⟨Map.mk 64 f, ?_, rfl, ?_⟩
    · rw [show buffer64 = 0 :: 64 :: List.replicate 12481 0 from rfl]
      simp only [load_map]
      rw [if_neg (by simp only [List.length_cons, List.length_replicate]; omega)]
      rw [if_neg (by simp only [List.length_cons, List.length_replicate]; omega)]
      rw [show ((64 :: List.replicate 12481 0).headD 0) = 64 from rfl]
      rw [loadBody]
      rw [if_neg (by simp only [List.length_cons, List.length_replicate]; omega)]
      rw [show ((0 : Nat) :: 64 :: List.replicate 12481 0).drop 2 = List.replicate 12481 0 from rfl]
      rw [hf]
    · show (64 : Nat) ≤ 127
      decide
  · rw [hcl]
    decide

end Slithergen
